import Mathlib

/-!
Verification of the nested-dictionary helpers, `vec2obj` and `inclusiverange`
from `sciris/utils.py`, against the natural-language specification.

Python dictionaries are modelled as insertion-ordered association structures
(`NDict`); arbitrary Python values are either such a dict or an opaque
non-container leaf (`PyVal`).  Exceptions are modelled with `Except`.
Truthiness of leaves is abstracted by a predicate `tr : α → Bool`
(`None` is always falsy, a dict is truthy iff non-empty, matching Python).
-/

set_option maxHeartbeats 1000000

mutual

/-- A Python value: an opaque non-container leaf, or a nested dict. -/
inductive PyVal (κ α : Type) where
  | leaf : α → PyVal κ α
  | dict : NDict κ α → PyVal κ α

/-- An insertion-ordered Python dict with keys `κ` and `PyVal` values. -/
inductive NDict (κ α : Type) where
  | nil : NDict κ α
  | cons : κ → PyVal κ α → NDict κ α → NDict κ α

end

variable {κ α : Type}

/-- Python `d[k]` / `d.get(k)` lookup: first entry with the given key. -/
def NDict.get? [DecidableEq κ] : NDict κ α → κ → Option (PyVal κ α)
  | .nil, _ => none
  | .cons k v rest, key => if k = key then some v else NDict.get? rest key

/-- Python `d[k] = v`: update in place if the key exists (keeping its
position), otherwise append the new entry at the end (insertion order). -/
def NDict.set [DecidableEq κ] : NDict κ α → κ → PyVal κ α → NDict κ α
  | .nil, key, v => .cons key v .nil
  | .cons k w rest, key, v =>
      if k = key then .cons k v rest else .cons k w (NDict.set rest key v)

/-- Whether the dict has no entries. -/
def NDict.isEmpty : NDict κ α → Bool
  | .nil => true
  | .cons _ _ _ => false

/-- The result of one step of `getnested`'s reduce: a Python object that is
either `None` (from a failed `.get`) or an actual value. -/
inductive PyObj (κ α : Type) where
  | none : PyObj κ α
  | val : PyVal κ α → PyObj κ α

/-- The Python exceptions these functions can raise. -/
inductive PyErr (κ : Type) where
  | keyError : κ → PyErr κ
  | typeError : PyErr κ
  | attributeError : PyErr κ
  | indexError : PyErr κ
deriving DecidableEq

/-- Python truthiness: `None` is falsy, a dict is truthy iff non-empty,
a leaf's truthiness is given by the abstract predicate `tr`. -/
def PyObj.truthy (tr : α → Bool) : PyObj κ α → Bool
  | .none => false
  | .val (.leaf a) => tr a
  | .val (.dict m) => !m.isEmpty

/-- One step of `getnested`'s reduce, from `utils.py` line 1556:
`lambda d, k: d.get(k) if d else None if safe else d[k]`, which Python
parses as `d.get(k) if d else (None if safe else d[k])`.  So a truthy `d`
always answers `d.get(k)` (missing key gives `None`, a non-dict has no
`.get` hence `AttributeError`); a falsy `d` gives `None` when `safe`,
otherwise `d[k]` (`TypeError` on `None` or a falsy leaf, `KeyError` on
the empty dict). -/
def getnestedStep [DecidableEq κ] (tr : α → Bool) (safe : Bool)
    (d : PyObj κ α) (k : κ) : Except (PyErr κ) (PyObj κ α) :=
  if d.truthy tr then
    match d with
    | .val (.dict m) =>
        match m.get? k with
        | some v => .ok (.val v)
        | none => .ok .none
    | .val (.leaf _) => .error .attributeError
    | .none => .error .attributeError
  else
    if safe then .ok .none
    else
      match d with
      | .none => .error .typeError
      | .val (.dict _) => .error (.keyError k)
      | .val (.leaf _) => .error .typeError

/-- `functools.reduce` of `getnestedStep` over the key list, with the
exception aborting the fold, starting from an arbitrary object. -/
def getnestedObj [DecidableEq κ] (tr : α → Bool) (safe : Bool) :
    PyObj κ α → List κ → Except (PyErr κ) (PyObj κ α)
  | d, [] => .ok d
  | d, k :: rest =>
      match getnestedStep tr safe d k with
      | .ok d2 => getnestedObj tr safe d2 rest
      | .error e => .error e

/-- `getnested(nesteddict, keylist, safe)` from `utils.py` lines 1553-1557:
`reduce(lambda d, k: d.get(k) if d else None if safe else d[k], keylist,
nesteddict)`. -/
def getnested [DecidableEq κ] (tr : α → Bool) (root : NDict κ α)
    (keylist : List κ) (safe : Bool) : Except (PyErr κ) (PyObj κ α) :=
  getnestedObj tr safe (.val (.dict root)) keylist

/-- Truthiness for integer leaves: Python's `bool(n)` is `n ≠ 0`. -/
def truthyInt : Int → Bool := fun n => n != 0

/-- The traversal of `setnested(nesteddict, keylist, value)` (`utils.py`
lines 1559-1562: `getnested(nesteddict, keylist[:-1])[keylist[-1]] = value`),
rendered with value semantics.  The walk follows exactly the `getnested`
steps with `safe=False` over `keylist[:-1]` and, where Python mutates the
sub-dict obtained (aliased inside the root), rebuilds the root with that
sub-dict updated.  The error cases are the ones `getnestedStep` and the
final item assignment produce:
* an empty dict along the way is falsy, so `d[k]` raises `KeyError`;
* a missing key on a non-empty dict yields `None` via `.get`, after which
  either the next step (`None` falsy, `None[k]`) or the final assignment
  (`None[last] = value`) raises `TypeError`;
* a leaf along the way raises `TypeError` on the final assignment, and on
  an intermediate step `AttributeError` (truthy leaf has no `.get`) or
  `TypeError` (falsy leaf, `d[k]`). -/
def setnestedWalk [DecidableEq κ] (tr : α → Bool) :
    NDict κ α → List κ → κ → PyVal κ α → Except (PyErr κ) (NDict κ α)
  | d, [], last, v => .ok (d.set last v)
  | d, k :: rest, last, v =>
      if d.isEmpty then .error (.keyError k)
      else
        match d.get? k with
        | some (.dict m) =>
            match setnestedWalk tr m rest last v with
            | .ok m2 => .ok (d.set k (.dict m2))
            | .error e => .error e
        | some (.leaf a) =>
            match rest with
            | [] => .error .typeError
            | _ :: _ => .error (if tr a then .attributeError else .typeError)
        | none => .error .typeError

/-- `setnested(nesteddict, keylist, value)` from `utils.py` lines 1559-1562.
An empty `keylist` raises `IndexError` (`keylist[-1]` on an empty list). -/
def setnested [DecidableEq κ] (tr : α → Bool) (root : NDict κ α)
    (keylist : List κ) (v : PyVal κ α) : Except (PyErr κ) (NDict κ α) :=
  match keylist with
  | [] => .error .indexError
  | k :: rest =>
      setnestedWalk tr root ((k :: rest).dropLast)
        ((k :: rest).getLast (List.cons_ne_nil k rest)) v

/-- `makenested(nesteddict, keylist, item)` from `utils.py` lines 1564-1571,
rendered with value semantics: walk `keylist[:-1]`, creating an empty dict
for each missing key, then assign `item` at the last key.  If an existing
intermediate value is a leaf, Python raises `TypeError` (either
`key in currentlevel` on a non-container, or the final item assignment);
an empty `keylist` raises `IndexError` (`keylist[-1]`). -/
def makenested [DecidableEq κ] :
    NDict κ α → List κ → PyVal κ α → Except (PyErr κ) (NDict κ α)
  | _, [], _ => .error .indexError
  | d, [k], item => .ok (d.set k item)
  | d, k :: k2 :: rest, item =>
      match d.get? k with
      | some (.dict m) =>
          match makenested m (k2 :: rest) item with
          | .ok m2 => .ok (d.set k (.dict m2))
          | .error e => .error e
      | some (.leaf _) => .error .typeError
      | none =>
          match makenested NDict.nil (k2 :: rest) item with
          | .ok m2 => .ok (d.set k (.dict m2))
          | .error e => .error e

mutual

/-- `iternested(nesteddict, previous)` from `utils.py` lines 1573-1580:
for each item `(k, v)` in order, if `v` is a dict recurse with
`previous + [k]`, else append the twig `previous + [k]`. -/
def iternestedD : NDict κ α → List κ → List (List κ)
  | .nil, _ => []
  | .cons k v rest, previous =>
      iternestedV k v previous ++ iternestedD rest previous

/-- The body of `iternested`'s loop for a single item. -/
def iternestedV : κ → PyVal κ α → List κ → List (List κ)
  | k, .dict m, previous => iternestedD m (previous ++ [k])
  | k, .leaf _, previous => [previous ++ [k]]

end

/-- `iternested(nesteddict)` with the default `previous = []`. -/
def iternested (root : NDict κ α) : List (List κ) :=
  iternestedD root []

mutual

/-- Modelled from the spec: "every complete path reaching a non-mapping
leaf, depth-first, in each level's own key order", for a dict. -/
def leafPathsD : NDict κ α → List (List κ)
  | .nil => []
  | .cons k v rest => (leafPathsV v).map (fun p => k :: p) ++ leafPathsD rest

/-- Modelled from the spec: the complete paths below a single value — a
non-mapping leaf is reached by the empty path. -/
def leafPathsV : PyVal κ α → List (List κ)
  | .leaf _ => [[]]
  | .dict m => leafPathsD m

end

/-- A path from a value down to a non-mapping leaf: it descends through an
entry present at each dict level and ends at a leaf. -/
inductive LeafPath : PyVal κ α → List κ → Prop where
  | leaf (a : α) : LeafPath (.leaf a) []
  | head {k : κ} {v : PyVal κ α} {m : NDict κ α} {p : List κ} :
      LeafPath v p → LeafPath (.dict (.cons k v m)) (k :: p)
  | tail {k : κ} {v : PyVal κ α} {m : NDict κ α} {p : List κ} :
      LeafPath (.dict m) p → LeafPath (.dict (.cons k v m)) p

/-- Errors of `flattendict`: the recursion-limit exception (which names the
key it stopped at) and `KeyError` from `inputdict[basekey]`. -/
inductive FlatErr (κ : Type) where
  | limit : κ → FlatErr κ
  | keyError : κ → FlatErr κ
deriving DecidableEq

/-- Association-list lookup for `flattendict`'s input dictionary, whose
values are lists of components (each component either names another key of
the dictionary or is a terminal item). -/
def lookupFD [DecidableEq κ] : List (κ × List κ) → κ → Option (List κ)
  | [], _ => none
  | (k, vs) :: rest, key => if k = key then some vs else lookupFD rest key

mutual

/-- `flattendict(inputdict, basekey, ..., limit)` from `utils.py` lines
1583-1624, in the `subkeys=None` case: raise the recursion-limit exception
naming `basekey` when `limit < 1`; otherwise append `basekey` to `keylist`,
fetch `inputdict[basekey]` (`KeyError` if absent) and loop over it.  The
accumulator pair is `(complist, keylist)`; the recursive call passes
`limit - 1`. -/
def flattendict [DecidableEq κ] (d : List (κ × List κ)) :
    κ → Nat → List κ × List κ → Except (FlatErr κ) (List κ × List κ)
  | basekey, 0, _ => .error (.limit basekey)
  | basekey, n + 1, acc =>
      match lookupFD d basekey with
      | none => .error (.keyError basekey)
      | some inputlist => flattenLoop d n inputlist (acc.1, acc.2 ++ [basekey])
termination_by _ n _ => (n, 0)

/-- The `for comp in inputlist` loop of `flattendict`: recurse on
components that are keys of the dictionary, append the others to
`complist`. -/
def flattenLoop [DecidableEq κ] (d : List (κ × List κ)) (n : Nat) :
    List κ → List κ × List κ → Except (FlatErr κ) (List κ × List κ)
  | [], acc => .ok acc
  | comp :: rest, acc =>
      if (d.map Prod.fst).contains comp then
        match flattendict d comp n acc with
        | .ok acc2 => flattenLoop d n rest acc2
        | .error e => .error e
      else flattenLoop d n rest (acc.1 ++ [comp], acc.2)
termination_by l _ => (n, l.length + 1)

end

/-- Errors of `vec2obj` (`utils.py` lines 994-1019): the argument checks,
`max([])`'s `ValueError`, and `IndexError` from `newvec[i]`. -/
inductive VErr where
  | origMissing
  | vecMissing
  | lengthMismatch
  | indexTooHigh
  | valueError
  | indexError
deriving DecidableEq

/-- The assignment loop `for i, ind in enumerate(inds): new[ind] = newvec[i]`
of `vec2obj`, taking the enumerated pairs `(i, ind)`.  `newvec[i]` raises
`IndexError` when `i` is out of range; `new[ind]` is always in range here
because `vec2obj` has already checked `max(inds) < len(orig)` (so
`List.set`'s out-of-range no-op is never reached with a changed meaning). -/
def assignLoop (nv : List α) : List (Nat × Nat) → List α → Except VErr (List α)
  | [], new => .ok new
  | (i, ind) :: rest, new =>
      match nv.get? i with
      | none => .error .indexError
      | some v => assignLoop nv rest (new.set ind v)

/-- `vec2obj(orig, newvec, inds)` from `utils.py` lines 994-1019, with the
keyed object modelled as a positional list and indices as naturals.  Checks,
in source order: `orig`/`newvec` present; length mismatch when `inds` is
not supplied; `max(inds)` (a `ValueError` on an empty list) at least
`len(orig)`; then `inds = range(lennew)` when absent, `new = dcp(orig)`,
and the enumerated assignment loop. -/
def vec2obj (orig : Option (List α)) (newvec : Option (List α))
    (inds : Option (List Nat)) : Except VErr (List α) :=
  match orig with
  | none => .error .origMissing
  | some o =>
      match newvec with
      | none => .error .vecMissing
      | some nv =>
          if (nv.length != o.length) && inds.isNone then .error .lengthMismatch
          else
            match inds with
            | some l =>
                if l.isEmpty then .error .valueError
                else if o.length ≤ l.foldl max 0 then .error .indexTooHigh
                else assignLoop nv l.enum o
            | none => assignLoop nv (List.range nv.length).enum o

/-- The writing loop of `vec2obj` over an explicit heap: the heap is a list
of cells, `newRef` is the cell holding `new = dcp(orig)`, and each step
writes `newvec[i]` into position `ind` of that cell.  On `IndexError` the
exception propagates with the heap as it stands (Python discards the
partially written fresh object but mutates nothing else). -/
def writeLoop (nv : List α) (newRef : Nat) :
    List (Nat × Nat) → List (List α) → Except VErr Unit × List (List α)
  | [], σ => (.ok (), σ)
  | (i, ind) :: rest, σ =>
      match nv.get? i with
      | none => (.error .indexError, σ)
      | some v =>
          writeLoop nv newRef rest
            (σ.set newRef (((σ.get? newRef).getD []).set ind v))

/-- `vec2obj` over an explicit heap, to state its frame property: `σ` is
the heap, `origRef` the cell holding the original object.  `dcp(orig)`
allocates a fresh cell (at index `σ.length`) holding a copy; all writes of
the loop go to that fresh cell.  Returns the result (the fresh reference on
success) together with the final heap. -/
def vec2objH (σ : List (List α)) (origRef : Nat) (newvec : List α)
    (inds : Option (List Nat)) : Except VErr Nat × List (List α) :=
  match σ.get? origRef with
  | none => (.error .origMissing, σ)
  | some o =>
      if (newvec.length != o.length) && inds.isNone then (.error .lengthMismatch, σ)
      else if inds.isSome && (inds.getD []).isEmpty then (.error .valueError, σ)
      else if inds.isSome && decide (o.length ≤ (inds.getD []).foldl max 0) then
        (.error .indexTooHigh, σ)
      else
        let idxs := inds.getD (List.range newvec.length)
        let w := writeLoop newvec σ.length idxs.enum (σ ++ [o])
        (w.1.map (fun _ => σ.length), w.2)

/-- Errors of `inclusiverange`: the unpacking `TypeError` of the one-arg
branch, too many positional arguments, `ZeroDivisionError` from
`(stop-start)/step`, and `ValueError` from `np.linspace` on a negative
count. -/
inductive RangeErr where
  | typeError
  | tooManyArgs
  | zeroDivision
  | valueError
deriving DecidableEq

/-- `np.linspace(a, b, n)` with both endpoints included: `n` evenly spaced
points `a + i*(b-a)/(n-1)`; `[a]` for `n = 1`, `[]` for `n = 0`. -/
def linspace (a b : ℚ) (n : Nat) : List ℚ :=
  if n = 0 then []
  else if n = 1 then [a]
  else (List.range n).map (fun (i : Nat) => a + (i : ℚ) * ((b - a) / ((n : ℚ) - 1)))

/-- The body of `inclusiverange` after argument resolution (`utils.py`
lines 1051-1060): apply the defaults `start=0, stop=1, step=1`, then
`np.linspace(start, stop, int(round((stop-start)/float(step))+1))`. -/
def inclusiverangeGo (start stop step : Option ℚ) : Except RangeErr (List ℚ) :=
  let start := start.getD 0
  let stop := stop.getD 1
  let step := step.getD 1
  if step = 0 then .error .zeroDivision
  else
    let num : ℤ := round ((stop - start) / step) + 1
    if num < 0 then .error .valueError
    else .ok (linspace start stop num.toNat)

/-- `inclusiverange(*args, **kwargs)` from `utils.py` lines 1022-1062.
Positional dispatch on `len(args)`: the `len(args)==1` branch executes
`start, step = None`, which raises `TypeError` (unpacking `None`) before
the kwargs are even consulted; more than three arguments raise.  Otherwise
each keyword argument, when supplied, overrides the positional one
(`start = kwargs.get('start', start)` etc.). -/
def inclusiverange (args : List ℚ) (start? stop? step? : Option ℚ) :
    Except RangeErr (List ℚ) :=
  match args with
  | [] => inclusiverangeGo start? stop? step?
  | [_] => .error .typeError
  | [a, b] => inclusiverangeGo (start?.getD a) (stop?.getD b) step?
  | [a, b, c] =>
      inclusiverangeGo (start?.getD a) (stop?.getD b) (step?.getD c)
  | _ => .error .tooManyArgs

/-- Whether `makenested` can place a value along this path: every
pre-existing level it walks through is a mapping (missing levels are fine —
they get created). -/
def makeCompatible [DecidableEq κ] : NDict κ α → List κ → Bool
  | _, [] => true
  | _, [_] => true
  | d, k :: k2 :: rest =>
      match d.get? k with
      | some (.dict m) => makeCompatible m (k2 :: rest)
      | some (.leaf _) => false
      | none => true

/-- Whether every value of the dict is an empty mapping. -/
def allEmptyDictValues : NDict κ α → Bool
  | .nil => true
  | .cons _ (.dict .nil) rest => allEmptyDictValues rest
  | .cons _ _ _ => false

/-- Whether every index in the list is below the bound. -/
def allBelow (l : List Nat) (n : Nat) : Bool :=
  l.all (fun i => decide (i < n))

/-- The dict `{'a': 1}` with an integer leaf. -/
def fooA : NDict String Int := NDict.cons "a" (PyVal.leaf 1) NDict.nil

/-- The dict `{'x': 1}` with an integer leaf. -/
def fooX : NDict String Int := NDict.cons "x" (PyVal.leaf 1) NDict.nil

/-- The dict `{'a': {}, 'b': {}}`, all of whose values are empty mappings. -/
def emptyValsDict : NDict String Int :=
  NDict.cons "a" (PyVal.dict NDict.nil) (NDict.cons "b" (PyVal.dict NDict.nil) NDict.nil)

/-- The cyclic reference structure `{'a': ['a']}`: the value list of key
`'a'` refers back to the key `'a'` itself. -/
def cycDict : List (String × List String) := [("a", ["a"])]

theorem NDict.get?_set_self [DecidableEq κ] :
    (d : NDict κ α) → (k : κ) → (v : PyVal κ α) → (d.set k v).get? k = some v
  | .nil, k, v => by simp [NDict.set, NDict.get?]
  | .cons k2 w rest, k, v => by
      by_cases h : k2 = k
      · simp [NDict.set, NDict.get?, h]
      · simp [NDict.set, NDict.get?, h, NDict.get?_set_self rest k v]

theorem NDict.isEmpty_set [DecidableEq κ] (d : NDict κ α) (k : κ) (v : PyVal κ α) :
    (d.set k v).isEmpty = false := by
  cases d with
  | nil => simp [NDict.set, NDict.isEmpty]
  | cons k2 w rest =>
      by_cases h : k2 = k <;> simp [NDict.set, NDict.isEmpty, h]

/-- Claim C1: with the root `{'a': 1}` (non-empty, so truthy), `getnested`
with `safe=False` silently answers `None` for the missing key `'b'` instead
of raising `KeyError`; and with `safe=True` it raises `AttributeError` on
the path `['a','b']` (the truthy non-mapping `1` has no `.get`) instead of
returning `None`.  This evaluates the code at both failing inputs of the
claim. -/
theorem getnested_safe_semantics_broken :
    getnested truthyInt fooA ["b"] false = .ok .none ∧
    getnested truthyInt fooA ["a", "b"] true = .error .attributeError :=
  ⟨rfl, rfl⟩

/-- Claim C3: with the root `{'x': 1}` and path `['a','b']`, the
intermediate level `'a'` is missing, but `setnested` raises `TypeError`
(assignment into the `None` produced by `.get`), not `KeyError`; only an
empty root produces the `KeyError` the claim demands. -/
theorem setnested_missing_level_wrong_error :
    setnested truthyInt fooX ["a", "b"] (PyVal.leaf 7) = .error .typeError ∧
    setnested truthyInt (NDict.nil : NDict String Int) ["a", "b"] (PyVal.leaf 7) =
      .error (.keyError "a") :=
  ⟨rfl, rfl⟩

/-- Claim C2, counterexample: on the root `{'a': 1}` and path `['a','b']`
(a pre-existing non-mapping intermediate level), `makenested` raises
`TypeError`, so no subsequent `getnested` can return the assigned value. -/
theorem makenested_nonmapping_level_fails :
    makenested fooA ["a", "b"] (PyVal.leaf 7) = .error .typeError := rfl

theorem getnestedObj_step_found [DecidableEq κ] (tr : α → Bool) (safe : Bool)
    (m : NDict κ α) (k : κ) (v : PyVal κ α) (ks : List κ)
    (h : m.get? k = some v) (hne : m.isEmpty = false) :
    getnestedObj tr safe (.val (.dict m)) (k :: ks) = getnestedObj tr safe (.val v) ks := by
  simp [getnestedObj, getnestedStep, PyObj.truthy, hne, h]

theorem makeCompatible_nil [DecidableEq κ] (ks : List κ) :
    makeCompatible (NDict.nil : NDict κ α) ks = true := by
  cases ks with
  | nil => rfl
  | cons k rest => cases rest <;> simp [makeCompatible, NDict.get?]

/-- Claim C2 (amended): whenever no pre-existing level along the path is a
non-mapping — captured by `makeCompatible` — `makenested` succeeds, creating
each missing intermediate level as an empty mapping, and a subsequent
`getnested` along the same path returns exactly the assigned value. -/
theorem makenested_then_getnested [DecidableEq κ] (tr : α → Bool) :
    (root : NDict κ α) → (ks : List κ) → (v : PyVal κ α) → ks ≠ [] →
    makeCompatible root ks = true →
    ((makenested root ks v).bind fun r2 => getnested tr r2 ks false) = .ok (.val v)
  | _, [], _, h, _ => absurd rfl h
  | root, [k], v, _, _ => by
      simp [makenested, Except.bind, getnested, getnestedObj, getnestedStep,
        PyObj.truthy, NDict.isEmpty_set, NDict.get?_set_self]
  | root, k :: k2 :: rest, v, _, hc => by
      cases hg : root.get? k with
      | some w =>
          cases w with
          | dict m =>
              simp only [makeCompatible, hg] at hc
              have ih := makenested_then_getnested tr m (k2 :: rest) v (by simp) hc
              cases hm : makenested m (k2 :: rest) v with
              | error e => rw [hm] at ih; simp [Except.bind] at ih
              | ok m2 =>
                  rw [hm] at ih
                  simp only [Except.bind, getnested] at ih ⊢
                  simp only [makenested, hg, hm]
                  rw [getnestedObj_step_found tr false (root.set k (.dict m2)) k
                    (.dict m2) (k2 :: rest) (NDict.get?_set_self root k _)
                    (NDict.isEmpty_set root k _)]
                  exact ih
          | leaf a => simp [makeCompatible, hg] at hc
      | none =>
          have ih := makenested_then_getnested tr NDict.nil (k2 :: rest) v
            (by simp) (makeCompatible_nil _)
          cases hm : makenested (NDict.nil : NDict κ α) (k2 :: rest) v with
          | error e => rw [hm] at ih; simp [Except.bind] at ih
          | ok m2 =>
              rw [hm] at ih
              simp only [Except.bind, getnested] at ih ⊢
              simp only [makenested, hg, hm]
              rw [getnestedObj_step_found tr false (root.set k (.dict m2)) k
                (.dict m2) (k2 :: rest) (NDict.get?_set_self root k _)
                (NDict.isEmpty_set root k _)]
              exact ih

mutual

theorem iternestedD_eq_leafPathsD :
    (m : NDict κ α) → (prev : List κ) →
    iternestedD m prev = (leafPathsD m).map (fun p => prev ++ p)
  | .nil, _ => rfl
  | .cons k v rest, prev => by
      simp only [iternestedD, leafPathsD, List.map_append, List.map_map,
        iternestedV_eq_leafPathsV k v prev, iternestedD_eq_leafPathsD rest prev]
      rfl

theorem iternestedV_eq_leafPathsV :
    (k : κ) → (v : PyVal κ α) → (prev : List κ) →
    iternestedV k v prev = (leafPathsV v).map (fun p => prev ++ k :: p)
  | _, .leaf _, _ => rfl
  | k, .dict m, prev => by
      simp only [iternestedV, leafPathsV, iternestedD_eq_leafPathsD m (prev ++ [k])]
      simp [List.append_assoc]

end

mutual

theorem mem_leafPathsD :
    (m : NDict κ α) → (p : List κ) → (p ∈ leafPathsD m ↔ LeafPath (.dict m) p)
  | .nil, p => by
      constructor
      · intro h; exact absurd h (List.not_mem_nil p)
      · intro h; cases h
  | .cons k v rest, p => by
      constructor
      · intro h
        rcases List.mem_append.mp h with hl | hr
        · rcases List.mem_map.mp hl with ⟨q, hq, rfl⟩
          exact LeafPath.head ((mem_leafPathsV v q).mp hq)
        · exact LeafPath.tail ((mem_leafPathsD rest p).mp hr)
      · intro h
        cases h with
        | head hq =>
            exact List.mem_append.mpr (Or.inl
              (List.mem_map.mpr ⟨_, (mem_leafPathsV v _).mpr hq, rfl⟩))
        | tail ht =>
            exact List.mem_append.mpr (Or.inr ((mem_leafPathsD rest p).mpr ht))

theorem mem_leafPathsV :
    (v : PyVal κ α) → (p : List κ) → (p ∈ leafPathsV v ↔ LeafPath v p)
  | .leaf a, p => by
      constructor
      · intro h
        simp only [leafPathsV, List.mem_singleton] at h
        exact h ▸ LeafPath.leaf a
      · intro h; cases h; simp [leafPathsV]
  | .dict m, p => mem_leafPathsD m p

end

/-- Claim C4: `iternested` produces exactly the complete paths from the
root to every non-mapping leaf — it equals the depth-first, key-ordered
enumeration `leafPathsD` written from the spec, and a path is produced iff
it is a root-to-leaf `LeafPath`.  Being a pure list, the sequence is finite
and re-enumerating it yields the same paths. -/
theorem iternested_eq_leaf_paths :
    ∀ (m : NDict κ α), iternested m = leafPathsD m ∧
      ∀ p : List κ, (p ∈ iternested m ↔ LeafPath (.dict m) p) := by
  intro m
  have he : iternested m = leafPathsD m := by
    simp [iternested, iternestedD_eq_leafPathsD m []]
  exact ⟨he, fun p => he ▸ mem_leafPathsD m p⟩

theorem allEmpty_iternestedD :
    (m : NDict κ α) → (prev : List κ) → allEmptyDictValues m = true →
    iternestedD m prev = []
  | .nil, _, _ => rfl
  | .cons k (.dict .nil) rest, prev, h => by
      simp only [iternestedD, iternestedV]
      rw [allEmpty_iternestedD rest prev (by simpa [allEmptyDictValues] using h)]
      rfl
  | .cons k (.leaf a) rest, prev, h => by simp [allEmptyDictValues] at h
  | .cons k (.dict (.cons k2 v m)) rest, prev, h => by
      simp [allEmptyDictValues] at h

/-- Claim C9: an empty nested mapping contributes nothing to `iternested`:
a root all of whose values are empty mappings enumerates to the empty
sequence, and every produced path is a complete root-to-leaf path (so no
path ends at, or passes through, an empty mapping, which admits no leaf
path). -/
theorem iternested_empty_mapping_contributes_nothing :
    (∀ (m : NDict κ α), allEmptyDictValues m = true → iternested m = []) ∧
    (∀ (m : NDict κ α) (p : List κ), p ∈ iternested m → LeafPath (.dict m) p) := by
  constructor
  · intro m h
    simpa [iternested] using allEmpty_iternestedD m [] h
  · intro m p hp
    have he : iternested m = (leafPathsD m).map (fun p => [] ++ p) := by
      simpa [iternested] using iternestedD_eq_leafPathsD m []
    simp only [List.nil_append, List.map_id_fun, id] at he
    exact (mem_leafPathsD m p).mp (by simpa [he] using hp)

/-- Witness for claim C9: the concrete root `{'a': {}, 'b': {}}`, all of
whose values are empty mappings, enumerates to the empty sequence. -/
theorem iternested_empty_mapping_witness :
    allEmptyDictValues emptyValsDict = true ∧ iternested emptyValsDict = [] :=
  ⟨rfl, iternested_empty_mapping_contributes_nothing.1 emptyValsDict rfl⟩

theorem linspace_length (a b : ℚ) (n : Nat) : (linspace a b n).length = n := by
  rcases n with _ | _ | n
  · rfl
  · rfl
  · unfold linspace
    rw [if_neg (by omega : ¬(n + 2 = 0)), if_neg (by omega : ¬(n + 2 = 1)),
      List.length_map, List.length_range]

theorem linspace_head? (a b : ℚ) (n : Nat) (hn : n ≠ 0) :
    (linspace a b n).head? = some a := by
  rcases n with _ | _ | n
  · exact absurd rfl hn
  · rfl
  · unfold linspace
    rw [if_neg (by omega : ¬(n + 2 = 0)), if_neg (by omega : ¬(n + 2 = 1)),
      List.range_succ_eq_map]
    simp

theorem linspace_getLast? (a b : ℚ) (n : Nat) :
    (linspace a b (n + 2)).getLast? = some b := by
  have h1 : ((n : ℚ) + 1) ≠ 0 := by positivity
  unfold linspace
  rw [if_neg (by omega : ¬(n + 2 = 0)), if_neg (by omega : ¬(n + 2 = 1)),
    List.range_succ, List.map_append, List.map_cons, List.map_nil,
    List.getLast?_concat]
  congr 1
  push_cast
  have h3 : (n : ℚ) + 2 - 1 = (n : ℚ) + 1 := by ring
  rw [h3, mul_comm, div_mul_cancel₀ _ h1]
  ring

/-- Claim C5: for integer positions `i ≤ j` and step 1, the inclusive range
contains exactly `j - i + 1` points and includes both bounds: its first
element is `i` and its last element is `j`. -/
theorem inclusiverange_inclusive_law (i j : ℤ) (h : i ≤ j) :
    (inclusiverange [(i : ℚ), (j : ℚ)] none none none).map
      (fun xs => ((xs.length : ℤ), xs.head?, xs.getLast?)) =
    .ok (j - i + 1, some ((i : ℤ) : ℚ), some ((j : ℤ) : ℚ)) := by
  obtain ⟨n, hn⟩ := Int.eq_ofNat_of_zero_le (sub_nonneg.mpr h)
  have hround : round (((j : ℚ) - (i : ℚ)) / 1) = j - i := by
    rw [div_one, ← Int.cast_sub, round_intCast]
  simp only [inclusiverange, inclusiverangeGo, Option.getD_none, Option.getD_some]
  rw [if_neg (one_ne_zero (α := ℚ)), hround, if_neg (by omega : ¬(j - i + 1 < 0))]
  have htn : (j - i + 1).toNat = n + 1 := by omega
  rw [htn]
  rcases n with _ | m
  · have hij : i = j := by omega
    simp [linspace, Except.map, hij]
  · simp only [Except.map]
    rw [linspace_length, linspace_head? _ _ _ (by omega), linspace_getLast?]
    have hlen : ((m + 1 + 1 : ℕ) : ℤ) = j - i + 1 := by omega
    rw [hlen]

/-- Witness for claim C5 at `i = 2`, `j = 5`. -/
theorem inclusiverange_inclusive_law_witness :
    ((2 : ℤ) ≤ 5) ∧
    (inclusiverange [((2 : ℤ) : ℚ), ((5 : ℤ) : ℚ)] none none none).map
      (fun xs => ((xs.length : ℤ), xs.head?, xs.getLast?)) =
    .ok ((5 : ℤ) - 2 + 1, some (((2 : ℤ) : ℤ) : ℚ), some (((5 : ℤ) : ℤ) : ℚ)) :=
  ⟨by decide, inclusiverange_inclusive_law 2 5 (by decide)⟩

/-- Claim C10: a call of `inclusiverange` with exactly one positional
argument raises `TypeError` (the `start, step = None` unpacking) whatever
keyword arguments are supplied, while calls with zero, two or three
positional arguments are accepted and produce inclusive ranges. -/
theorem inclusiverange_one_positional_arg_fails :
    (∀ (a : ℚ) (s t u : Option ℚ), inclusiverange [a] s t u = .error .typeError) ∧
    inclusiverange [] none none none = .ok [0, 1] ∧
    inclusiverange [2, 5] none none none = .ok [2, 3, 4, 5] ∧
    inclusiverange [2, 8, 3] none none none = .ok [2, 5, 8] := by
  refine ⟨fun a s t u => rfl, ?_, ?_, ?_⟩
  · norm_num [inclusiverange, inclusiverangeGo, round_eq]
    norm_num [show ((2 : ℤ)).toNat = 2 from rfl, linspace, List.range_succ]
  · norm_num [inclusiverange, inclusiverangeGo, round_eq]
    norm_num [show ((4 : ℤ)).toNat = 4 from rfl, linspace, List.range_succ]
  · norm_num [inclusiverange, inclusiverangeGo, round_eq]
    norm_num [show ((3 : ℤ)).toNat = 3 from rfl, linspace, List.range_succ]

/-- Claim C6: the depth-first traversal of `flattendict` is bounded by
`limit`: whenever the limit is exhausted it raises the recursion-limit
exception naming the offending key, for every input dictionary; and on the
cyclic structure `{'a': ['a']}` it raises that exception for every limit
whatsoever instead of descending forever. -/
theorem flattendict_recursion_limit [DecidableEq κ] :
    (∀ (d : List (κ × List κ)) (k : κ) (acc : List κ × List κ),
        flattendict d k 0 acc = .error (.limit k)) ∧
    (∀ (n : Nat) (acc : List String × List String),
        flattendict cycDict "a" n acc = .error (.limit "a")) := by
  constructor
  · intro d k acc
    simp [flattendict]
  · intro n
    induction n with
    | zero => intro acc; simp [flattendict]
    | succ n ih =>
        intro acc
        have ih' := ih (acc.1, acc.2 ++ ["a"])
        simp only [cycDict] at ih'
        simp [flattendict, flattenLoop, lookupFD, cycDict, ih']

/-- Claim C7, counterexample: with an address list longer than the
replacement vector (`orig = [10, 20]`, `newvec = [9]`, `inds = [0, 1]`),
`vec2obj` raises `IndexError` reading `newvec[1]` part-way through the
loop, so the replacement is not applied at every supplied address. -/
theorem vec2obj_overlong_address_list_fails :
    vec2obj (some [(10 : Int), 20]) (some [9]) (some [0, 1]) =
      .error .indexError := rfl

theorem foldl_max_lt :
    ∀ (l : List Nat) (acc n : Nat), acc < n → (∀ i ∈ l, i < n) →
      l.foldl max acc < n
  | [], _, _, h, _ => h
  | x :: l, acc, n, h, hall => by
      refine foldl_max_lt l (max acc x) n ?_ (fun i hi => hall i (List.mem_cons_of_mem _ hi))
      exact max_lt h (hall x (List.mem_cons_self x l))

theorem assignLoop_enumFrom (nv : List α) :
    ∀ (l : List Nat) (s : Nat) (new : List α), s + l.length ≤ nv.length →
    assignLoop nv (List.enumFrom s l) new =
      .ok ((l.zip (nv.drop s)).foldl (fun acc p => acc.set p.1 p.2) new)
  | [], s, new, _ => by simp [assignLoop, List.enumFrom]
  | ind :: l, s, new, h => by
      have hs : s < nv.length := by
        simp only [List.length_cons] at h
        omega
      rw [List.enumFrom_cons]
      simp only [assignLoop]
      rw [List.get?_eq_getElem?, List.getElem?_eq_getElem hs]
      rw [List.drop_eq_getElem_cons hs, List.zip_cons_cons, List.foldl_cons]
      exact assignLoop_enumFrom nv l (s + 1) (new.set ind nv[s]) (by
        simp only [List.length_cons] at h
        omega)

/-- Claim C7 (amended): when no index list is supplied, `vec2obj` raises
the length-mismatch error whenever the vector's length differs from the
object's; when a non-empty index list no longer than the vector is
supplied, with every index below the object's length, the replacement is
applied element-wise in address order, assigning the i-th vector element
at the i-th supplied address (an index list longer than the vector instead
raises `IndexError`, and an empty one `ValueError`). -/
theorem vec2obj_elementwise :
    (∀ (o nv : List α), nv.length ≠ o.length →
        vec2obj (some o) (some nv) none = .error .lengthMismatch) ∧
    (∀ (o nv : List α) (l : List Nat), l ≠ [] → l.length ≤ nv.length →
        allBelow l o.length = true →
        vec2obj (some o) (some nv) (some l) =
          .ok ((l.zip nv).foldl (fun acc p => acc.set p.1 p.2) o)) := by
  constructor
  · intro o nv h
    simp [vec2obj, h]
  · intro o nv l h1 h2 h3
    have h3' : ∀ i ∈ l, i < o.length := by
      intro i hi
      have := (List.all_eq_true.mp h3) i hi
      simpa using this
    have hmax : l.foldl max 0 < o.length := by
      rcases l with _ | ⟨x, l⟩
      · exact absurd rfl h1
      · exact foldl_max_lt _ 0 _
          (Nat.lt_of_le_of_lt (Nat.zero_le x) (h3' x (List.mem_cons_self x l)))
          h3'
    simp only [vec2obj]
    rw [if_neg (by simp)]
    rw [if_neg (by simp [List.isEmpty_iff, h1])]
    rw [if_neg (not_le.mpr hmax)]
    rw [List.enum_eq_enumFrom, assignLoop_enumFrom nv l 0 o (by omega)]
    rw [List.drop_zero]

/-- Witness for the amended claim C7: replacing positions `[2, 0]` of
`[10, 20, 30]` with `[7, 8]` in address order yields `[8, 20, 7]`. -/
theorem vec2obj_elementwise_witness :
    (([2, 0] : List Nat) ≠ []) ∧
    ([2, 0] : List Nat).length ≤ ([7, 8] : List Int).length ∧
    allBelow [2, 0] ([(10 : Int), 20, 30] : List Int).length = true ∧
    vec2obj (some [(10 : Int), 20, 30]) (some [7, 8]) (some [2, 0]) =
      .ok [8, 20, 7] :=
  ⟨by decide, by decide, by decide,
    (vec2obj_elementwise.2 [10, 20, 30] [7, 8] [2, 0] (by decide) (by decide)
      (by decide)).trans rfl⟩

theorem writeLoop_preserves (nv : List α) (R : Nat) :
    ∀ (ps : List (Nat × Nat)) (σ : List (List α)) (i : Nat), i ≠ R →
      (writeLoop nv R ps σ).2.get? i = σ.get? i
  | [], _, _, _ => rfl
  | (a, ind) :: ps, σ, i, h => by
      cases hv : nv.get? a with
      | none => simp only [writeLoop, hv]
      | some v =>
          simp only [writeLoop, hv]
          rw [writeLoop_preserves nv R ps _ i h, List.get?_eq_getElem?,
            List.getElem?_set_ne (Ne.symm h), ← List.get?_eq_getElem?]

/-- Claim C8: `vec2obj` never mutates the pre-existing object.  Over the
explicit-heap rendering: every pre-existing heap cell (in particular the
one holding `orig`) is unchanged by the call, whether it succeeds or fails
part-way through — all writes go to the freshly allocated deep copy — and
on success the returned reference is the fresh cell, distinct from every
pre-existing one. -/
theorem vec2objH_frame :
    (∀ (σ : List (List α)) (r : Nat) (nv : List α) (inds : Option (List Nat))
        (i : Nat), i < σ.length →
        (vec2objH σ r nv inds).2.get? i = σ.get? i) ∧
    (∀ (σ : List (List α)) (r : Nat) (nv : List α) (inds : Option (List Nat))
        (ref : Nat), (vec2objH σ r nv inds).1 = .ok ref → ref = σ.length) := by
  have happ : ∀ (σ : List (List α)) (o : List α) (i : Nat), i < σ.length →
      (σ ++ [o]).get? i = σ.get? i := by
    intro σ o i hi
    rw [List.get?_eq_getElem?, List.get?_eq_getElem?, List.getElem?_append_left hi]
  constructor
  · intro σ r nv inds i hi
    cases ho : σ.get? r with
    | none => simp only [vec2objH, ho]
    | some o =>
        simp only [vec2objH, ho]
        by_cases h1 : ((nv.length != o.length) && inds.isNone) = true
        · rw [if_pos h1]
        · rw [if_neg h1]
          by_cases h2 : (inds.isSome && (inds.getD []).isEmpty) = true
          · rw [if_pos h2]
          · rw [if_neg h2]
            by_cases h3 :
                (inds.isSome && decide (o.length ≤ (inds.getD []).foldl max 0)) = true
            · rw [if_pos h3]
            · rw [if_neg h3]
              simp only []
              rw [writeLoop_preserves nv σ.length
                (inds.getD (List.range nv.length)).enum (σ ++ [o]) i (by omega),
                happ σ o i hi]
  · intro σ r nv inds ref href
    cases ho : σ.get? r with
    | none => simp only [vec2objH, ho] at href; exact absurd href (by simp)
    | some o =>
        simp only [vec2objH, ho] at href
        by_cases h1 : ((nv.length != o.length) && inds.isNone) = true
        · rw [if_pos h1] at href; exact absurd href (by simp)
        · rw [if_neg h1] at href
          by_cases h2 : (inds.isSome && (inds.getD []).isEmpty) = true
          · rw [if_pos h2] at href; exact absurd href (by simp)
          · rw [if_neg h2] at href
            by_cases h3 :
                (inds.isSome && decide (o.length ≤ (inds.getD []).foldl max 0)) = true
            · rw [if_pos h3] at href; exact absurd href (by simp)
            · rw [if_neg h3] at href
              simp only [] at href
              cases hw : (writeLoop nv σ.length
                  (inds.getD (List.range nv.length)).enum (σ ++ [o])).1 with
              | ok u => rw [hw] at href; simpa [Except.map] using href.symm
              | error e => rw [hw] at href; simp [Except.map] at href

/-- Witness for claim C8: on the heap `[[1,2],[3]]` with `orig` at cell 0,
calling `vec2objH` leaves the other pre-existing cell 1 untouched. -/
theorem vec2objH_frame_witness :
    (1 < ([[(1 : Int), 2], [3]] : List (List Int)).length) ∧
    (vec2objH ([[(1 : Int), 2], [3]] : List (List Int)) 0 [9, 9] none).2.get? 1 =
      ([[(1 : Int), 2], [3]] : List (List Int)).get? 1 :=
  ⟨by decide, vec2objH_frame.1 [[1, 2], [3]] 0 [9, 9] none 1 (by decide)⟩

/-- Witness for the amended claim C2: building `['a','b'] ↦ 7` in an empty
root succeeds and reading it back returns `7`, with no pre-existing
intermediate levels. -/
theorem makenested_then_getnested_witness :
    ((["a", "b"] : List String) ≠ []) ∧
    makeCompatible (NDict.nil : NDict String Int) ["a", "b"] = true ∧
    ((makenested (NDict.nil : NDict String Int) ["a", "b"] (PyVal.leaf 7)).bind
      fun r2 => getnested truthyInt r2 ["a", "b"] false) = .ok (.val (PyVal.leaf 7)) :=
  ⟨by decide, rfl,
    makenested_then_getnested truthyInt NDict.nil ["a", "b"] (PyVal.leaf 7)
      (by decide) rfl⟩
